import Mathlib

/-!
# Verification of the Realtime Polling vote-ingestion core

Shallow embedding of the vote controller (`submitVote`, `_getPollResultsInternal`,
`getPollResults`), the poll-room subscription handling, and a small-step model of
concurrent vote submissions, together with proofs of the specified properties.
-/

namespace Polling

/-- A poll row: identifier, question text, published flag, owner id. -/
structure Poll where
  id : String
  question : String
  isPublished : Bool
  userId : String
deriving Repr, DecidableEq

/-- A poll option row: identifier, display text, parent poll reference. -/
structure PollOption where
  id : String
  text : String
  pollId : String
deriving Repr, DecidableEq

/-- A vote row: identifier, voter identity, chosen option reference. -/
structure Vote where
  id : String
  userId : String
  pollOptionId : String
deriving Repr, DecidableEq

/-- The relational store: polls, options and votes, each list in creation order. -/
structure Store where
  polls : List Poll
  options : List PollOption
  votes : List Vote
deriving Repr, DecidableEq

/-- `prisma.pollOption.findUnique({where: {id}})`. -/
def findOption (s : Store) (oid : String) : Option PollOption :=
  s.options.find? (fun o => o.id == oid)

/-- Lookup of the parent poll reached through the `include: { poll: ... }` clause. -/
def findPoll (s : Store) (pid : String) : Option Poll :=
  s.polls.find? (fun p => p.id == pid)

/-- `prisma.vote.findFirst({where: {userId, pollOption: {pollId}}})` as a Bool:
does `uid` already hold a vote for any option of poll `pid`? -/
def hasVoteInPoll (opts : List PollOption) (votes : List Vote)
    (uid pid : String) : Bool :=
  votes.any (fun v =>
    v.userId == uid &&
      ((opts.find? (fun o => o.id == v.pollOptionId)).map PollOption.pollId == some pid))

/-- Number of votes referencing option `oid` (`_count: { select: { votes: true } }`). -/
def voteCount (votes : List Vote) (oid : String) : Nat :=
  (votes.filter (fun v => v.pollOptionId == oid)).length

/-- Modelled from the spec: the storage layer's uniqueness invariant on votes.
`schema.prisma` is not among the provided source files; the spec (§3, §4.1) and the
repository README state that the store enforces "one vote row per (user, poll)" as a
compound uniqueness constraint, raising error code P2002 on violation.  `insertVote`
is the atomic constrained insert: it fails exactly when the voter already holds a
vote for some option of the option's parent poll. -/
def insertVote (s : Store) (uid oid vid : String) : Except Unit Store :=
  match findOption s oid with
  | none => Except.error ()
  | some o =>
    if hasVoteInPoll s.options s.votes uid o.pollId then
      Except.error ()
    else
      Except.ok { s with votes := s.votes ++ [⟨vid, uid, oid⟩] }

/-- One entry of a computed tally: option id, text, vote count, rounded percentage. -/
structure OptionResult where
  id : String
  text : String
  voteCount : Nat
  percentage : Nat
deriving Repr, DecidableEq

/-- A computed tally for one poll. -/
structure PollResults where
  pollId : String
  question : String
  totalVotes : Nat
  options : List OptionResult
deriving Repr, DecidableEq

/-- `Math.round((count / totalVotes) * 100)` for non-negative arguments: round half
away from zero of `100 * c / t`, computed in exact integer arithmetic. -/
def jsRound (c t : Nat) : Nat :=
  (200 * c + t) / (2 * t)

/-- `_getPollResultsInternal(pollId)`: recompute the tally from the store. -/
def getPollResultsInternal (s : Store) (pid : String) : Option PollResults :=
  match findPoll s pid with
  | none => none
  | some poll =>
    let opts := s.options.filter (fun o => o.pollId == pid)
    let totalVotes := opts.foldl (fun sum o => sum + voteCount s.votes o.id) 0
    some
      { pollId := poll.id
        question := poll.question
        totalVotes := totalVotes
        options := opts.map (fun o =>
          { id := o.id
            text := o.text
            voteCount := voteCount s.votes o.id
            percentage :=
              if totalVotes > 0 then jsRound (voteCount s.votes o.id) totalVotes
              else 0 }) }

/-- The payload emitted on the `pollUpdate` event:
`{ pollId: pollOption.poll.id, results: updatedPollResults }`. -/
structure PollUpdatePayload where
  pollId : String
  results : PollResults
deriving Repr, DecidableEq

/-- An HTTP-level response from the vote controller: status code and, for error
responses, the `error` field of the JSON body. -/
structure Response where
  status : Nat
  error : Option String
deriving Repr, DecidableEq

/-- The full observable outcome of a `submitVote` call: the HTTP response, the store
after the call, and the list of broadcasts emitted (in order). -/
structure SubmitResult where
  response : Response
  store : Store
  broadcasts : List PollUpdatePayload
deriving Repr, DecidableEq

/-- JavaScript falsiness of the incoming `pollOptionId` body field: absent (`none`),
or present but the empty string. -/
def isFalsyId : Option String → Bool
  | none => true
  | some s => s.isEmpty

/-- `submitVote(req, res, io)`: the vote admission controller.  `uid` is the trusted
identity from the auth middleware, `oid?` the request body's `pollOptionId`, `vid`
the fresh row id the store assigns to a created vote. -/
def submitVote (s : Store) (uid : String) (oid? : Option String) (vid : String) :
    SubmitResult :=
  if isFalsyId oid? then
    { response := ⟨400, some "Poll option ID is required"⟩, store := s, broadcasts := [] }
  else
    match findOption s (oid?.getD "") with
    | none =>
      { response := ⟨404, some "Poll option not found"⟩, store := s, broadcasts := [] }
    | some o =>
      match findPoll s o.pollId with
      | none =>
        -- dereferencing `pollOption.poll` of a missing parent row throws; the
        -- catch-all maps it to 500 (unreachable under referential integrity)
        { response := ⟨500, some "Internal server error"⟩, store := s, broadcasts := [] }
      | some poll =>
        if !poll.isPublished then
          { response := ⟨403, some "Cannot vote on unpublished poll"⟩, store := s,
            broadcasts := [] }
        else if hasVoteInPoll s.options s.votes uid poll.id then
          { response := ⟨409, some "You have already voted in this poll"⟩, store := s,
            broadcasts := [] }
        else
          match insertVote s uid (oid?.getD "") vid with
          | Except.error _ =>
            { response := ⟨409, some "You have already voted for this option"⟩,
              store := s, broadcasts := [] }
          | Except.ok s' =>
            match getPollResultsInternal s' poll.id with
            | none =>
              { response := ⟨500, some "Internal server error"⟩, store := s',
                broadcasts := [] }
            | some results =>
              { response := ⟨201, none⟩, store := s',
                broadcasts := [⟨poll.id, results⟩] }

/-- `getPollResults(req, res)`: the results endpoint.  `caller` is the authenticated
identity, which the handler never reads. -/
def getPollResults (s : Store) (pid : String) (_caller : String) :
    Response × Option PollResults × Store :=
  match getPollResultsInternal s pid with
  | none => (⟨404, some "Poll not found"⟩, none, s)
  | some results => (⟨200, none⟩, some results, s)

/-! ## Wire payloads as JSON values -/

/-- A minimal JSON value model for stating wire-shape contracts. -/
inductive Json where
  | str (s : String)
  | num (n : Nat)
  | arr (xs : List Json)
  | obj (fields : List (String × Json))

/-- The top-level keys of a JSON object (empty for non-objects). -/
def Json.topKeys : Json → List String
  | .obj fields => fields.map Prod.fst
  | _ => []

/-- JSON encoding of one tally entry, field for field as the controller builds it. -/
def optionResultJson (e : OptionResult) : Json :=
  .obj [("id", .str e.id), ("text", .str e.text),
        ("voteCount", .num e.voteCount), ("percentage", .num e.percentage)]

/-- JSON encoding of a computed tally, field for field as the controller builds it. -/
def pollResultsJson (r : PollResults) : Json :=
  .obj [("pollId", .str r.pollId), ("question", .str r.question),
        ("totalVotes", .num r.totalVotes),
        ("options", .arr (r.options.map optionResultJson))]

/-- JSON encoding of the `pollUpdate` event payload:
`{ pollId: ..., results: ... }` as emitted by the controller. -/
def payloadJson (p : PollUpdatePayload) : Json :=
  .obj [("pollId", .str p.pollId), ("results", pollResultsJson p.results)]

/-- Shape of one option entry per the spec's wire contract:
an object with exactly the keys `id, text, voteCount, percentage`. -/
def isOptionEntryShape : Json → Bool
  | .obj [("id", .str _), ("text", .str _), ("voteCount", .num _),
          ("percentage", .num _)] => true
  | _ => false

/-- Stated from the spec's wire contract, for comparison against the code's
payload: a tally broadcast payload of the shape
`\x7bpollId, question, totalVotes, options: [\x7bid, text, voteCount, percentage\x7d]\x7d`. -/
def isSpecTallyShape : Json → Bool
  | .obj [("pollId", .str _), ("question", .str _), ("totalVotes", .num _),
          ("options", .arr xs)] => xs.all isOptionEntryShape
  | _ => false

/-! ## Subscription registry (poll rooms) -/

/-- Modelled from the spec: the Subscription Registry (§4.3).  The room-membership
machinery behind `socket.join` / `socket.leave` and the implicit cleanup on
disconnect is provided by the transport library, not by a source file of this
repository; the socket module only forwards `joinPoll` / `leavePoll` events to it.
Per the spec, membership maps each poll topic to the set of currently subscribed
connections; a topic entry is created on first join and pruned when its last
member leaves or disconnects. -/
abbrev Registry := List (String × List String)

/-- The set of connections currently subscribed to topic `t`. -/
def topicMembers (r : Registry) (t : String) : List String :=
  ((r.find? (fun e => e.1 == t)).map Prod.snd).getD []

/-- `join(topic, conn)`: add `c` to the member set of `t`, creating the topic on
first join; adding an already present member changes nothing. -/
def joinTopic (r : Registry) (t c : String) : Registry :=
  match r with
  | [] => [(t, [c])]
  | e :: rest =>
    if e.1 == t then
      if e.2.contains c then e :: rest else (e.1, c :: e.2) :: rest
    else e :: joinTopic rest t c

/-- `leave(topic, conn)`: remove `c` from the member set of `t`, pruning the topic
entry when it becomes empty. -/
def leaveTopic (r : Registry) (t c : String) : Registry :=
  match r with
  | [] => []
  | e :: rest =>
    if e.1 == t then
      let ms := e.2.filter (fun x => !(x == c))
      if ms.isEmpty then rest else (e.1, ms) :: rest
    else e :: leaveTopic rest t c

/-- `onDisconnect(conn)`: remove `c` from every topic it had joined, pruning
topics that become empty. -/
def onDisconnect (r : Registry) (c : String) : Registry :=
  match r with
  | [] => []
  | e :: rest =>
    let ms := e.2.filter (fun x => !(x == c))
    if ms.isEmpty then onDisconnect rest c else (e.1, ms) :: onDisconnect rest c

/-- A broadcast to topic `t` delivers one copy of the payload to each current
member. -/
def deliveries (r : Registry) (t : String) (msg : PollUpdatePayload) :
    List (String × PollUpdatePayload) :=
  (topicMembers r t).map (fun c => (c, msg))

/-! ## Concurrent vote submissions: a small-step interleaving model -/

/-- The classified outcome of one vote submission. -/
inductive VoteResult where
  | accepted
  | notFound
  | forbidden
  | conflictEarly
  | conflictLate
  | internalError
deriving Repr, DecidableEq

/-- The HTTP response the controller sends for each outcome, as written in the
source (status code and `error` body field; `201` carries no error field). -/
def responseOf : VoteResult → Response
  | .accepted => ⟨201, none⟩
  | .notFound => ⟨404, some "Poll option not found"⟩
  | .forbidden => ⟨403, some "Cannot vote on unpublished poll"⟩
  | .conflictEarly => ⟨409, some "You have already voted in this poll"⟩
  | .conflictLate => ⟨409, some "You have already voted for this option"⟩
  | .internalError => ⟨500, some "Internal server error"⟩

/-- Whether an outcome is an already-voted conflict (either detection path). -/
def VoteResult.isConflict : VoteResult → Bool
  | .conflictEarly => true
  | .conflictLate => true
  | _ => false

/-- Progress of one in-flight `submitVote` call: not yet started; past the
pre-flight duplicate lookup (recording what it saw); or finished. -/
inductive CallPhase where
  | ready
  | checked (sawExisting : Bool)
  | finished (r : VoteResult)
deriving Repr, DecidableEq

/-- Whether a phase has (already) observed an existing duplicate vote. -/
def CallPhase.sawConflict : CallPhase → Bool
  | .checked true => true
  | .finished .conflictEarly => true
  | .finished .conflictLate => true
  | _ => false

/-- State of a set of concurrent submissions: the vote table, plus each call's
target option id and phase.  Polls and options are not mutated by voting and
live in the step relation's parameters. -/
structure ConcState where
  votes : List Vote
  calls : List (String × CallPhase)
deriving Repr, DecidableEq

/-- The phase a call reaches by running the controller up to and including the
pre-flight duplicate lookup: option existence check, then published check (both
on static tables), then the pre-flight read of the vote table. -/
def startPhase (polls : List Poll) (opts : List PollOption) (uid : String)
    (votes : List Vote) (oid : String) : CallPhase :=
  match opts.find? (fun x => x.id == oid) with
  | none => .finished .notFound
  | some o =>
    match polls.find? (fun p => p.id == o.pollId) with
    | none => .finished .internalError
    | some poll =>
      if !poll.isPublished then .finished .forbidden
      else .checked (hasVoteInPoll opts votes uid o.pollId)

/-- One atomic step of the interleaved execution of concurrent `submitVote`
calls, all issued by voter `uid`.  A call first runs its validation and
pre-flight read (`start`); a call that saw a duplicate finishes with the early
conflict (`rejectDup`); a call that saw none attempts the atomic constrained
insert, which fails with P2002 when a vote for the option's poll meanwhile
exists (`insertFail`) and otherwise durably appends the vote (`insertOk`). -/
inductive CStep (polls : List Poll) (opts : List PollOption) (uid : String) :
    ConcState → ConcState → Prop where
  | start (i : Nat) (oid : String) (s : ConcState)
      (hi : s.calls[i]? = some (oid, .ready)) :
      CStep polls opts uid s
        ⟨s.votes, s.calls.set i (oid, startPhase polls opts uid s.votes oid)⟩
  | rejectDup (i : Nat) (oid : String) (s : ConcState)
      (hi : s.calls[i]? = some (oid, .checked true)) :
      CStep polls opts uid s
        ⟨s.votes, s.calls.set i (oid, .finished .conflictEarly)⟩
  | insertFail (i : Nat) (oid : String) (o : PollOption) (s : ConcState)
      (hi : s.calls[i]? = some (oid, .checked false))
      (ho : opts.find? (fun x => x.id == oid) = some o)
      (hdup : hasVoteInPoll opts s.votes uid o.pollId = true) :
      CStep polls opts uid s
        ⟨s.votes, s.calls.set i (oid, .finished .conflictLate)⟩
  | insertOk (i : Nat) (oid vid : String) (o : PollOption) (s : ConcState)
      (hi : s.calls[i]? = some (oid, .checked false))
      (ho : opts.find? (fun x => x.id == oid) = some o)
      (hfresh : hasVoteInPoll opts s.votes uid o.pollId = false) :
      CStep polls opts uid s
        ⟨s.votes ++ [⟨vid, uid, oid⟩], s.calls.set i (oid, .finished .accepted)⟩

/-- Zero or more interleaved steps. -/
abbrev CSteps (polls : List Poll) (opts : List PollOption) (uid : String) :=
  Relation.ReflTransGen (CStep polls opts uid)

/-- How many of the calls have finished as `accepted`. -/
def acceptedCount (calls : List (String × CallPhase)) : Nat :=
  calls.countP (fun c => c.2 == CallPhase.finished .accepted)

/-! ## Helper definitions and lemmas -/

/-- The spec's per-option rounding: round half up (JavaScript `Math.round` on
non-negative input) of a rational. -/
def specRound (q : ℚ) : Nat := Nat.floor (q + 1/2)

/-! ## Demo fixtures and invariant definitions -/

/-- A published demo poll with three options and one vote on each. -/
def onesStore : Store :=
  { polls := [⟨"p", "Favorite letter?", true, "owner"⟩]
    options := [⟨"a", "A", "p"⟩, ⟨"b", "B", "p"⟩, ⟨"c", "C", "p"⟩]
    votes := [⟨"v1", "u1", "a"⟩, ⟨"v2", "u2", "b"⟩, ⟨"v3", "u3", "c"⟩] }

/-- The tally computed for `onesStore`. -/
def onesTally : PollResults :=
  { pollId := "p", question := "Favorite letter?", totalVotes := 3
    options := [⟨"a", "A", 1, 33⟩, ⟨"b", "B", 1, 33⟩, ⟨"c", "C", 1, 33⟩] }

/-- The store with poll `pid`'s published flag set to `b` (all else unchanged). -/
def setPublished (s : Store) (pid : String) (b : Bool) : Store :=
  { s with
    polls := s.polls.map (fun p => if p.id == pid then { p with isPublished := b } else p) }

/-- An unpublished demo poll owned by `owner`, with one option and no votes. -/
def unpubStore : Store :=
  { polls := [⟨"p", "Q", false, "owner"⟩]
    options := [⟨"a", "A", "p"⟩]
    votes := [] }

/-- A demo registry: one topic with one member. -/
def regDemo : Registry := [("poll-1", ["alice"])]

/-- A demo registry with two topics and a shared member. -/
def regDemo₂ : Registry := [("poll-1", ["alice", "bob"]), ("poll-2", ["bob"])]

/-- A call's target is an existing option belonging to poll `P`. -/
def ValidTarget (opts : List PollOption) (P oid : String) : Prop :=
  (opts.find? (fun x => x.id == oid)).map PollOption.pollId = some P

/-- Phases reachable when every call targets a valid option of a published poll. -/
def PhaseOK : CallPhase → Prop
  | .ready => True
  | .checked _ => True
  | .finished .accepted => True
  | .finished .conflictEarly => True
  | .finished .conflictLate => True
  | _ => False

/-- The inductive invariant of the interleaved execution: targets stay valid,
phases stay in range, the voter's vote for poll `P` exists exactly when some
call accepted, at most one call accepted, and any call that observed a
duplicate is preceded by an acceptance. -/
structure ConcInv (polls : List Poll) (opts : List PollOption) (uid P : String)
    (s : ConcState) : Prop where
  valid : ∀ c ∈ s.calls, ValidTarget opts P c.1
  phase : ∀ c ∈ s.calls, PhaseOK c.2
  vote_acc : hasVoteInPoll opts s.votes uid P = decide (1 ≤ acceptedCount s.calls)
  acc_le : acceptedCount s.calls ≤ 1
  saw : ∀ c ∈ s.calls, c.2.sawConflict = true → 1 ≤ acceptedCount s.calls

/-- Static tables for the two-call demo run. -/
def c1polls : List Poll := [⟨"p", "Q", true, "w"⟩]

/-- Options of the demo poll. -/
def c1opts : List PollOption := [⟨"a", "A", "p"⟩, ⟨"b", "B", "p"⟩]

/-- Initial state: two concurrent calls by `u`, none started, no votes. -/
def c1s0 : ConcState := ⟨[], [("a", .ready), ("b", .ready)]⟩

/-- After call 0's pre-flight read (no duplicate seen). -/
def c1s1 : ConcState := ⟨[], [("a", .checked false), ("b", .ready)]⟩

/-- After call 0's successful insert. -/
def c1s2 : ConcState :=
  ⟨[⟨"v1", "u", "a"⟩], [("a", .finished .accepted), ("b", .ready)]⟩

/-- After call 1's pre-flight read (duplicate seen). -/
def c1s3 : ConcState :=
  ⟨[⟨"v1", "u", "a"⟩], [("a", .finished .accepted), ("b", .checked true)]⟩

/-- Final state: one accepted, one early conflict. -/
def c1s4 : ConcState :=
  ⟨[⟨"v1", "u", "a"⟩], [("a", .finished .accepted), ("b", .finished .conflictEarly)]⟩

/-- Options for the three-call demo run. -/
def c4opts : List PollOption := [⟨"a", "A", "p"⟩, ⟨"b", "B", "p"⟩, ⟨"c", "C", "p"⟩]

/-- Initial state of the three-call run: all ready, no votes. -/
def c4s0 : ConcState := ⟨[], [("a", .ready), ("b", .ready), ("c", .ready)]⟩

/-- Call 0 past its pre-flight read. -/
def c4s1 : ConcState := ⟨[], [("a", .checked false), ("b", .ready), ("c", .ready)]⟩

/-- Call 1 past its pre-flight read — before call 0 inserts. -/
def c4s2 : ConcState :=
  ⟨[], [("a", .checked false), ("b", .checked false), ("c", .ready)]⟩

/-- Call 0 wins the race and inserts. -/
def c4s3 : ConcState :=
  ⟨[⟨"v1", "u", "a"⟩], [("a", .finished .accepted), ("b", .checked false), ("c", .ready)]⟩

/-- Call 1's atomic insert hits the uniqueness constraint: the late conflict. -/
def c4s4 : ConcState :=
  ⟨[⟨"v1", "u", "a"⟩],
    [("a", .finished .accepted), ("b", .finished .conflictLate), ("c", .ready)]⟩

/-- Call 2's pre-flight read now sees the existing vote. -/
def c4s5 : ConcState :=
  ⟨[⟨"v1", "u", "a"⟩],
    [("a", .finished .accepted), ("b", .finished .conflictLate), ("c", .checked true)]⟩

/-- Call 2 takes the early-conflict exit. -/
def c4s6 : ConcState :=
  ⟨[⟨"v1", "u", "a"⟩],
    [("a", .finished .accepted), ("b", .finished .conflictLate),
      ("c", .finished .conflictEarly)]⟩

/-- A published one-option poll with no votes yet. -/
def voteStore : Store := ⟨[⟨"p", "Q", true, "w"⟩], [⟨"a", "A", "p"⟩], []⟩

/-- The payload emitted for the demo vote. -/
def votePayload : PollUpdatePayload := ⟨"p", ⟨"p", "Q", 1, [⟨"a", "A", 1, 100⟩]⟩⟩

/-- The integer tally rounding agrees with the spec's `round(100 * c / t)`. -/
theorem jsRound_eq_specRound (c t : Nat) (ht : 0 < t) :
    jsRound c t = specRound ((100 * c : ℚ) / t) := by
  unfold jsRound specRound
  have ht' : (0 : ℚ) < t := by exact_mod_cast ht
  have h : (100 * c : ℚ) / t + 1 / 2 = ((200 * c + t : ℕ) : ℚ) / ((2 * t : ℕ) : ℚ) := by
    push_cast
    field_simp
    ring
  rw [h, Nat.floor_div_eq_div]

/-- `reduce((sum, o) => sum + f o, init)` is `init` plus the sum of the mapped list. -/
theorem foldl_add_eq_sum (f : PollOption → Nat) (l : List PollOption) (init : Nat) :
    l.foldl (fun sum o => sum + f o) init = init + (l.map f).sum := by
  induction l generalizing init with
  | nil => simp
  | cons x xs ih => simp [ih]; omega

/-! ## Claim theorems -/

/-- C3: for every poll whose options hold counts `c1..ck`, the computed tally
reports `total = c1 + ... + ck`; each option's percentage is
`round(100 * ci / total)` when `total > 0` and `0` for every option when
`total = 0`, rounded independently per option; counts 1/1/1 give `[33,33,33]`. -/
theorem polling_tally_correct :
    (∀ (s : Store) (pid : String) (r : PollResults),
      getPollResultsInternal s pid = some r →
        r.totalVotes = (r.options.map OptionResult.voteCount).sum ∧
        ∀ e ∈ r.options,
          e.percentage =
            if 0 < r.totalVotes then specRound ((100 * e.voteCount : ℚ) / r.totalVotes)
            else 0) ∧
    (getPollResultsInternal onesStore "p").map
        (fun r => r.options.map OptionResult.percentage) = some [33, 33, 33] := by
  constructor
  · intro s pid r h
    unfold getPollResultsInternal at h
    cases hp : findPoll s pid with
    | none => rw [hp] at h; exact absurd h (by simp)
    | some poll =>
      rw [hp] at h
      simp only [Option.some.injEq] at h
      subst h
      constructor
      · simp only [List.map_map]
        rw [foldl_add_eq_sum (fun o => voteCount s.votes o.id)]
        simp only [Nat.zero_add]
        rfl
      · intro e he
        simp only [List.mem_map] at he
        obtain ⟨o, _, rfl⟩ := he
        simp only
        split
        · next hpos =>
          rw [jsRound_eq_specRound _ _ hpos]
        · rfl
  · decide

/-- Closed instantiation of the tally theorem at the 1/1/1 demo store. -/
theorem polling_tally_correct_witness :
    onesTally.totalVotes = (onesTally.options.map OptionResult.voteCount).sum ∧
    ∀ e ∈ onesTally.options,
      e.percentage =
        if 0 < onesTally.totalVotes then
          specRound ((100 * e.voteCount : ℚ) / onesTally.totalVotes)
        else 0 :=
  polling_tally_correct.1 onesStore "p" onesTally (by decide)

/-- C9: a falsy `pollOptionId` in the request body yields status 400 with error
`Poll option ID is required`, leaves the store untouched, emits no broadcast, and
the response does not depend on the store at all. -/
theorem polling_missing_option_id :
    (∀ (s : Store) (uid : String) (oid? : Option String) (vid : String),
      isFalsyId oid? = true →
      submitVote s uid oid? vid =
        { response := ⟨400, some "Poll option ID is required"⟩, store := s,
          broadcasts := [] }) ∧
    (∀ (s₁ s₂ : Store) (uid : String) (oid? : Option String) (vid : String),
      isFalsyId oid? = true →
      (submitVote s₁ uid oid? vid).response = (submitVote s₂ uid oid? vid).response) := by
  have key : ∀ (s : Store) (uid : String) (oid? : Option String) (vid : String),
      isFalsyId oid? = true →
      submitVote s uid oid? vid =
        { response := ⟨400, some "Poll option ID is required"⟩, store := s,
          broadcasts := [] } := by
    intro s uid oid? vid h
    unfold submitVote
    rw [h]
    simp
  exact ⟨key, fun s₁ s₂ uid oid? vid h => by rw [key s₁ uid oid? vid h, key s₂ uid oid? vid h]⟩

/-- Closed instantiation of the missing-id theorem. -/
theorem polling_missing_option_id_witness :
    submitVote onesStore "u1" none "v9" =
      { response := ⟨400, some "Poll option ID is required"⟩, store := onesStore,
        broadcasts := [] } :=
  polling_missing_option_id.1 onesStore "u1" none "v9" (by decide)

/-- Looking up poll `pid` after flipping its published flag finds the same poll
with the flag flipped. -/
theorem find?_map_setPub (pid : String) (b : Bool) (l : List Poll) :
    (l.map (fun p => if p.id == pid then { p with isPublished := b } else p)).find?
        (fun p => p.id == pid) =
      (l.find? (fun p => p.id == pid)).map (fun p => { p with isPublished := b }) := by
  have hpred : ((fun p : Poll => p.id == pid) ∘
      (fun p => if p.id == pid then { p with isPublished := b } else p)) =
      (fun p : Poll => p.id == pid) := by
    funext p
    by_cases h : (p.id == pid) = true
    · rw [Function.comp_apply, if_pos h]
    · rw [Function.comp_apply, if_neg h]
  rw [List.find?_map, hpred]
  cases hf : l.find? (fun p => p.id == pid) with
  | none => rfl
  | some p₀ =>
    have hp : (p₀.id == pid) = true := by simpa using List.find?_some hf
    simp [hp]
    exact fun hne => absurd (eq_of_beq hp) hne

theorem findPoll_setPublished (s : Store) (pid : String) (b : Bool) :
    findPoll (setPublished s pid b) pid =
      (findPoll s pid).map (fun p => { p with isPublished := b }) :=
  find?_map_setPub pid b s.polls

/-- The computed tally does not depend on the poll's published flag. -/
theorem getPollResultsInternal_setPublished (s : Store) (pid : String) (b : Bool) :
    getPollResultsInternal (setPublished s pid b) pid = getPollResultsInternal s pid := by
  unfold getPollResultsInternal
  rw [findPoll_setPublished]
  cases findPoll s pid with
  | none => rfl
  | some poll => rfl

/-- C10: `getPollResults` answers 200 with the full tally for every existing poll,
independently of the poll's published flag and of the authenticated caller;
it answers 404 exactly when the poll does not exist; it never mutates the store. -/
theorem polling_results_endpoint :
    (∀ (s : Store) (pid caller : String) (r : PollResults),
      getPollResultsInternal s pid = some r →
      getPollResults s pid caller = (⟨200, none⟩, some r, s)) ∧
    (∀ (s : Store) (pid caller : String),
      findPoll s pid = none →
      getPollResults s pid caller = (⟨404, some "Poll not found"⟩, none, s)) ∧
    (∀ (s : Store) (pid caller : String), (getPollResults s pid caller).2.2 = s) ∧
    (∀ (s : Store) (pid c₁ c₂ : String),
      getPollResults s pid c₁ = getPollResults s pid c₂) ∧
    (∀ (s : Store) (pid caller : String) (b : Bool),
      (getPollResults (setPublished s pid b) pid caller).1 =
        (getPollResults s pid caller).1 ∧
      (getPollResults (setPublished s pid b) pid caller).2.1 =
        (getPollResults s pid caller).2.1) := by
  refine ⟨?_, ?_, ?_, ?_, ?_⟩
  · intro s pid caller r h
    unfold getPollResults
    rw [h]
  · intro s pid caller h
    unfold getPollResults getPollResultsInternal
    rw [h]
  · intro s pid caller
    unfold getPollResults
    cases getPollResultsInternal s pid <;> rfl
  · intro s pid c₁ c₂
    rfl
  · intro s pid caller b
    unfold getPollResults
    rw [getPollResultsInternal_setPublished]
    cases getPollResultsInternal s pid <;> exact ⟨rfl, rfl⟩

/-- Closed instantiation of the results-endpoint theorem at the demo store. -/
theorem polling_results_endpoint_witness :
    getPollResults onesStore "p" "anyCaller" = (⟨200, none⟩, some onesTally, onesStore) :=
  polling_results_endpoint.1 onesStore "p" "anyCaller" onesTally (by decide)

/-- C2: `submitVote` checks its preconditions in order, each mapped to its stable
status code: nonexistent option → 404 `Poll option not found` (regardless of any
later condition); existing option of an unpublished poll → 403 for every voter,
the owner included; an existing vote by the voter in that poll → 409.  Each conjunct
assumes only the earlier checks passed, so an earlier failure preempts later ones. -/
theorem polling_precondition_order :
    ∀ (s : Store) (uid oid vid : String), oid ≠ "" →
      (findOption s oid = none →
        submitVote s uid (some oid) vid =
          { response := ⟨404, some "Poll option not found"⟩, store := s,
            broadcasts := [] }) ∧
      (∀ o poll, findOption s oid = some o → findPoll s o.pollId = some poll →
        poll.isPublished = false →
        submitVote s uid (some oid) vid =
          { response := ⟨403, some "Cannot vote on unpublished poll"⟩, store := s,
            broadcasts := [] }) ∧
      (∀ o poll, findOption s oid = some o → findPoll s o.pollId = some poll →
        poll.isPublished = true →
        hasVoteInPoll s.options s.votes uid poll.id = true →
        submitVote s uid (some oid) vid =
          { response := ⟨409, some "You have already voted in this poll"⟩, store := s,
            broadcasts := [] }) := by
  intro s uid oid vid hne
  have hf : isFalsyId (some oid) = false := by
    show oid.isEmpty = false
    rw [Bool.eq_false_iff]
    intro h
    exact hne ((String.isEmpty_iff oid).mp h)
  have hg : (some oid).getD "" = oid := rfl
  refine ⟨?_, ?_, ?_⟩
  · intro h404
    unfold submitVote
    simp [hf, hg, h404]
  · intro o poll ho hpoll hpub
    unfold submitVote
    simp [hf, hg, ho, hpoll, hpub]
  · intro o poll ho hpoll hpub hdup
    unfold submitVote
    simp [hf, hg, ho, hpoll, hpub, hdup]

/-- Closed instantiation: the owner of an unpublished poll is rejected with 403. -/
theorem polling_precondition_order_witness :
    submitVote unpubStore "owner" (some "a") "v9" =
      { response := ⟨403, some "Cannot vote on unpublished poll"⟩, store := unpubStore,
        broadcasts := [] } :=
  (polling_precondition_order unpubStore "owner" "a" "v9" (by decide)).2.1
    ⟨"a", "A", "p"⟩ ⟨"p", "Q", false, "owner"⟩ (by decide) (by decide) (by decide)

/-- A successful constrained insert appends exactly the new vote row and touches
no other table. -/
theorem insertVote_ok (s : Store) (uid oid vid : String) (s' : Store)
    (h : insertVote s uid oid vid = Except.ok s') :
    s'.polls = s.polls ∧ s'.options = s.options ∧
      s'.votes = s.votes ++ [⟨vid, uid, oid⟩] := by
  unfold insertVote at h
  split at h
  · exact absurd h (by simp)
  · split at h
    · exact absurd h (by simp)
    · simp only [Except.ok.injEq] at h
      subst h
      exact ⟨rfl, rfl, rfl⟩

/-- The tally computation succeeds whenever the poll row exists. -/
theorem getPollResultsInternal_some_of_findPoll (s : Store) (pid : String) (poll : Poll)
    (h : findPoll s pid = some poll) : ∃ r, getPollResultsInternal s pid = some r := by
  unfold getPollResultsInternal
  rw [h]
  exact ⟨_, rfl⟩

/-- C6: every rejected `submitVote` call emits no broadcast and creates no vote
row; a broadcast is emitted only on the accepted path, after the insert has
completed, and then carries the tally of the post-insert store. -/
theorem polling_no_broadcast_on_rejection :
    ∀ (s : Store) (uid : String) (oid? : Option String) (vid : String),
      ((submitVote s uid oid? vid).response.status ≠ 201 →
        (submitVote s uid oid? vid).broadcasts = [] ∧
        (submitVote s uid oid? vid).store = s) ∧
      (∀ b ∈ (submitVote s uid oid? vid).broadcasts,
        (submitVote s uid oid? vid).response.status = 201 ∧
        (submitVote s uid oid? vid).store.votes = s.votes ++ [⟨vid, uid, oid?.getD ""⟩] ∧
        getPollResultsInternal (submitVote s uid oid? vid).store b.pollId =
          some b.results) := by
  intro s uid oid? vid
  unfold submitVote
  split
  · exact ⟨fun _ => ⟨rfl, rfl⟩, fun b hb => absurd hb (List.not_mem_nil b)⟩
  · split
    · exact ⟨fun _ => ⟨rfl, rfl⟩, fun b hb => absurd hb (List.not_mem_nil b)⟩
    · next o ho =>
      split
      · exact ⟨fun _ => ⟨rfl, rfl⟩, fun b hb => absurd hb (List.not_mem_nil b)⟩
      · next poll hpoll =>
        split
        · exact ⟨fun _ => ⟨rfl, rfl⟩, fun b hb => absurd hb (List.not_mem_nil b)⟩
        · split
          · exact ⟨fun _ => ⟨rfl, rfl⟩, fun b hb => absurd hb (List.not_mem_nil b)⟩
          · split
            · exact ⟨fun _ => ⟨rfl, rfl⟩, fun b hb => absurd hb (List.not_mem_nil b)⟩
            · next s' hins =>
              split
              · next hres =>
                exfalso
                obtain ⟨hpolls, -, -⟩ := insertVote_ok s uid _ vid s' hins
                have hpid : poll.id = o.pollId :=
                  eq_of_beq (by simpa using List.find?_some hpoll)
                have hfp : findPoll s' poll.id = some poll := by
                  unfold findPoll
                  rw [hpolls, hpid]
                  exact hpoll
                obtain ⟨r, hr⟩ :=
                  getPollResultsInternal_some_of_findPoll s' poll.id poll hfp
                rw [hres] at hr
                exact Option.noConfusion hr
              · next results hres =>
                constructor
                · intro hns
                  exact absurd rfl hns
                · intro b hb
                  rw [List.mem_singleton] at hb
                  subst hb
                  obtain ⟨-, -, hv⟩ := insertVote_ok s uid _ vid s' hins
                  exact ⟨rfl, hv, hres⟩

/-- Closed instantiation: a duplicate vote by `u1` is rejected with no broadcast
and no store change. -/
theorem polling_no_broadcast_on_rejection_witness :
    (submitVote onesStore "u1" (some "b") "v9").broadcasts = [] ∧
    (submitVote onesStore "u1" (some "b") "v9").store = onesStore :=
  (polling_no_broadcast_on_rejection onesStore "u1" (some "b") "v9").1 (by decide)

/-- Joining a topic twice is the same as joining it once. -/
theorem joinTopic_idem (r : Registry) (t c : String) :
    joinTopic (joinTopic r t c) t c = joinTopic r t c := by
  induction r with
  | nil => simp [joinTopic]
  | cons e rest ih =>
    by_cases h : (e.1 == t) = true
    · by_cases hc : c ∈ e.2
      · simp [joinTopic, h, hc]
      · simp [joinTopic, h, hc]
    · simp [joinTopic, h, ih]

/-- Effect of a join on the joined topic's member set. -/
theorem topicMembers_join (r : Registry) (t c : String) :
    topicMembers (joinTopic r t c) t =
      if (topicMembers r t).contains c then topicMembers r t
      else c :: topicMembers r t := by
  induction r with
  | nil => simp [topicMembers, joinTopic]
  | cons e rest ih =>
    by_cases h : (e.1 == t) = true
    · by_cases hc : c ∈ e.2
      · simp [topicMembers, joinTopic, h, hc, List.find?_cons]
      · simp [topicMembers, joinTopic, h, hc, List.find?_cons]
    · have hj : joinTopic (e :: rest) t c = e :: joinTopic rest t c := by
        simp [joinTopic, h]
      have hm : ∀ l, topicMembers (e :: l) t = topicMembers l t := by
        intro l
        simp [topicMembers, List.find?_cons, h]
      rw [hj, hm, hm, ih]

/-- A topic absent from the registry's keys has no members. -/
theorem topicMembers_eq_nil_of_not_mem_keys (r : Registry) (t : String)
    (h : ¬ t ∈ r.map Prod.fst) : topicMembers r t = [] := by
  unfold topicMembers
  cases hf : r.find? (fun e => e.1 == t) with
  | none => rfl
  | some e =>
    exfalso
    have hbeq : (e.1 == t) = true := by simpa using List.find?_some hf
    have hm : e ∈ r := List.mem_of_find?_eq_some hf
    exact h (by rw [← eq_of_beq hbeq]; exact List.mem_map_of_mem Prod.fst hm)

/-- Disconnecting never introduces a topic key. -/
theorem keys_onDisconnect_subset (r : Registry) (c t : String)
    (h : t ∈ (onDisconnect r c).map Prod.fst) : t ∈ r.map Prod.fst := by
  induction r with
  | nil =>
    simp only [onDisconnect] at h
    exact h
  | cons e rest ih =>
    unfold onDisconnect at h
    by_cases hemp : (e.2.filter (fun x => !(x == c))).isEmpty
    · rw [if_pos hemp] at h
      simp only [List.map_cons]
      exact List.mem_cons_of_mem e.1 (ih h)
    · rw [if_neg hemp] at h
      simp only [List.map_cons] at h ⊢
      rcases List.mem_cons.mp h with h1 | h2
      · exact List.mem_cons.mpr (Or.inl h1)
      · exact List.mem_cons.mpr (Or.inr (ih h2))

/-- After `onDisconnect c`, `c` belongs to no topic's member set. -/
theorem not_mem_topicMembers_onDisconnect (r : Registry) (c t : String) :
    c ∉ topicMembers (onDisconnect r c) t := by
  induction r with
  | nil => simp [onDisconnect, topicMembers]
  | cons e rest ih =>
    unfold onDisconnect
    by_cases hemp : (e.2.filter (fun x => !(x == c))).isEmpty
    · rw [if_pos hemp]
      exact ih
    · rw [if_neg hemp]
      by_cases h : (e.1 == t) = true
      · intro hc
        have : c ∈ e.2.filter (fun x => !(x == c)) := by
          simp only [topicMembers, List.find?_cons, h] at hc
          exact hc
        have := (List.mem_filter.mp this).2
        simp at this
      · intro hc
        exact ih (by simpa [topicMembers, List.find?_cons, h] using hc)

/-- Disconnecting `c` preserves every other connection's memberships
(on a registry whose topic keys are distinct). -/
theorem mem_topicMembers_onDisconnect (r : Registry) (c c' t : String)
    (hkeys : (r.map Prod.fst).Nodup) (hne : c' ≠ c) :
    (c' ∈ topicMembers (onDisconnect r c) t ↔ c' ∈ topicMembers r t) := by
  induction r with
  | nil => simp [onDisconnect]
  | cons e rest ih =>
    rw [List.map_cons] at hkeys
    obtain ⟨hkt, hkr⟩ := List.nodup_cons.mp hkeys
    unfold onDisconnect
    by_cases h : (e.1 == t) = true
    · have het : e.1 = t := eq_of_beq h
      by_cases hemp : (e.2.filter (fun x => !(x == c))).isEmpty = true
      · rw [if_pos hemp]
        have h1 : topicMembers (onDisconnect rest c) t = [] := by
          apply topicMembers_eq_nil_of_not_mem_keys
          intro hmem
          exact hkt (het ▸ keys_onDisconnect_subset rest c t hmem)
        have h2 : topicMembers (e :: rest) t = e.2 := by
          simp [topicMembers, List.find?_cons, h]
        rw [h1, h2]
        constructor
        · intro hx
          exact absurd hx (List.not_mem_nil c')
        · intro hx
          exfalso
          have hmf : c' ∈ e.2.filter (fun x => !(x == c)) :=
            List.mem_filter.mpr ⟨hx, by simp [hne]⟩
          rw [List.isEmpty_iff.mp hemp] at hmf
          exact absurd hmf (List.not_mem_nil c')
      · rw [if_neg hemp]
        have hL : topicMembers ((e.1, e.2.filter (fun x => !(x == c))) ::
            onDisconnect rest c) t = e.2.filter (fun x => !(x == c)) := by
          simp [topicMembers, List.find?_cons, h]
        have hR : topicMembers (e :: rest) t = e.2 := by
          simp [topicMembers, List.find?_cons, h]
        rw [hL, hR, List.mem_filter]
        constructor
        · rintro ⟨hx, -⟩
          exact hx
        · intro hx
          exact ⟨hx, by simp [hne]⟩
    · have hm : ∀ l, topicMembers (e :: l) t = topicMembers l t := fun l => by
        simp [topicMembers, List.find?_cons, h]
      by_cases hemp : (e.2.filter (fun x => !(x == c))).isEmpty = true
      · rw [if_pos hemp, hm]
        exact ih hkr
      · rw [if_neg hemp]
        have hm2 : topicMembers ((e.1, e.2.filter (fun x => !(x == c))) ::
            onDisconnect rest c) t = topicMembers (onDisconnect rest c) t := by
          simp [topicMembers, List.find?_cons, h]
        rw [hm2, hm]
        exact ih hkr

/-- Leaving a topic one is not a member of changes nothing (on a registry with no
empty member sets, as maintained by create-on-first-join / prune-on-empty). -/
theorem leaveTopic_not_mem (r : Registry) (t c : String)
    (hne : ∀ e ∈ r, e.2 ≠ []) (hnm : c ∉ topicMembers r t) :
    leaveTopic r t c = r := by
  induction r with
  | nil => rfl
  | cons e rest ih =>
    unfold leaveTopic
    by_cases h : (e.1 == t) = true
    · have hm : topicMembers (e :: rest) t = e.2 := by
        simp [topicMembers, List.find?_cons, h]
      have hce : c ∉ e.2 := fun hx => hnm (hm ▸ hx)
      have hfe : e.2.filter (fun x => !(x == c)) = e.2 :=
        List.filter_eq_self.mpr (fun x hx => by
          simp only [Bool.not_eq_true']
          exact beq_eq_false_iff_ne.mpr (fun hxc => hce (hxc ▸ hx)))
      rw [if_pos h]
      simp only [hfe]
      rw [if_neg (by simp [List.isEmpty_iff, hne e (List.mem_cons_self e rest)])]
    · have hm : topicMembers (e :: rest) t = topicMembers rest t := by
        simp [topicMembers, List.find?_cons, h]
      rw [if_neg h,
        ih (fun x hx => hne x (List.mem_cons_of_mem e hx)) (fun hx => hnm (hm ▸ hx))]

/-- Counting one connection's copies among per-member deliveries counts the
connection among the members. -/
theorem count_pair_map (l : List String) (c : String) (msg : PollUpdatePayload) :
    (l.map (fun x => (x, msg))).count (c, msg) = l.count c := by
  induction l with
  | nil => rfl
  | cons x xs ih =>
    rw [List.map_cons]
    by_cases h : x = c
    · subst h
      rw [List.count_cons_self, List.count_cons_self, ih]
    · rw [List.count_cons_of_ne (fun he => h ((congrArg Prod.fst he).symm)),
        List.count_cons_of_ne (fun he => h he.symm), ih]

/-- In a duplicate-free list, a member is counted exactly once. -/
theorem count_eq_one_of_nodup_mem (l : List String) (c : String)
    (hnd : l.Nodup) (hc : c ∈ l) : l.count c = 1 := by
  induction l with
  | nil => cases hc
  | cons x xs ih =>
    rw [List.nodup_cons] at hnd
    by_cases hxc : x = c
    · subst hxc
      rw [List.count_cons_self,
        List.count_eq_zero_of_not_mem hnd.1]
    · rcases List.mem_cons.mp hc with h | h
      · exact absurd h.symm hxc
      · rw [List.count_cons_of_ne (fun he => hxc he.symm), ih hnd.2 h]

/-- C7: joining the same poll topic twice is idempotent — the registry is left
exactly as after one join, and a subsequent broadcast delivers exactly one copy
to that connection; leaving a topic the connection never joined is a no-op. -/
theorem polling_join_idem_leave_noop :
    ∀ (r : Registry) (t c : String) (msg : PollUpdatePayload),
      joinTopic (joinTopic r t c) t c = joinTopic r t c ∧
      ((topicMembers r t).Nodup →
        (deliveries (joinTopic (joinTopic r t c) t c) t msg).count (c, msg) = 1) ∧
      ((∀ e ∈ r, e.2 ≠ []) → c ∉ topicMembers r t → leaveTopic r t c = r) := by
  intro r t c msg
  refine ⟨joinTopic_idem r t c, ?_, leaveTopic_not_mem r t c⟩
  intro hnd
  rw [joinTopic_idem]
  unfold deliveries
  rw [count_pair_map, topicMembers_join]
  by_cases hc : c ∈ topicMembers r t
  · rw [if_pos (by simpa using hc)]
    exact count_eq_one_of_nodup_mem _ c hnd hc
  · rw [if_neg (by simpa using hc), List.count_cons_self,
      List.count_eq_zero_of_not_mem hc]

/-- Closed instantiation: after `bob` joins `poll-1` twice he receives one copy,
and his leaving the never-joined `poll-2` changes nothing. -/
theorem polling_join_idem_leave_noop_witness :
    (deliveries (joinTopic (joinTopic regDemo "poll-1" "bob") "poll-1" "bob")
        "poll-1" ⟨"p", onesTally⟩).count ("bob", ⟨"p", onesTally⟩) = 1 ∧
    leaveTopic regDemo "poll-2" "bob" = regDemo :=
  ⟨(polling_join_idem_leave_noop regDemo "poll-1" "bob" ⟨"p", onesTally⟩).2.1
      (by decide),
   (polling_join_idem_leave_noop regDemo "poll-2" "bob" ⟨"p", onesTally⟩).2.2
      (by decide) (by decide)⟩

/-- C8: after a connection disconnects it belongs to no topic, no broadcast
delivers to it, and (for distinct topic keys) every other connection's
membership in every topic is unchanged. -/
theorem polling_disconnect_prunes :
    ∀ (r : Registry) (c : String),
      (∀ t, c ∉ topicMembers (onDisconnect r c) t) ∧
      (∀ t msg, ∀ d ∈ deliveries (onDisconnect r c) t msg, d.1 ≠ c) ∧
      ((r.map Prod.fst).Nodup → ∀ t c', c' ≠ c →
        (c' ∈ topicMembers (onDisconnect r c) t ↔ c' ∈ topicMembers r t)) := by
  intro r c
  refine ⟨fun t => not_mem_topicMembers_onDisconnect r c t, ?_, ?_⟩
  · intro t msg d hd
    unfold deliveries at hd
    obtain ⟨m, hm, rfl⟩ := List.mem_map.mp hd
    intro hc
    exact not_mem_topicMembers_onDisconnect r c t (hc ▸ hm)
  · intro hk t c' hne
    exact mem_topicMembers_onDisconnect r c c' t hk hne

/-- Closed instantiation: disconnecting `bob` leaves `alice`'s membership intact. -/
theorem polling_disconnect_prunes_witness :
    ("alice" ∈ topicMembers (onDisconnect regDemo₂ "bob") "poll-1" ↔
      "alice" ∈ topicMembers regDemo₂ "poll-1") :=
  (polling_disconnect_prunes regDemo₂ "bob").2.2 (by decide) "poll-1" "alice" (by decide)

/-! ## Concurrency invariant for C1 -/

/-- Replacing one element changes `countP` by the predicate's difference on the
old and new element. -/
theorem countP_set_eq {α : Type} (l : List α) (i : Nat) (a b : α) (p : α → Bool)
    (h : l[i]? = some a) :
    (l.set i b).countP p + (if p a then 1 else 0) =
      l.countP p + (if p b then 1 else 0) := by
  induction l generalizing i with
  | nil => simp at h
  | cons x xs ih =>
    cases i with
    | zero =>
      rw [List.getElem?_cons_zero, Option.some.injEq] at h
      subst h
      rw [List.set_cons_zero, List.countP_cons, List.countP_cons]
      omega
    | succ n =>
      rw [List.getElem?_cons_succ] at h
      rw [List.set_cons_succ, List.countP_cons, List.countP_cons]
      have := ih n h
      omega

/-- The validation phase never finishes as `accepted`. -/
theorem startPhase_ne_accepted (polls : List Poll) (opts : List PollOption)
    (uid : String) (votes : List Vote) (oid : String) :
    ((startPhase polls opts uid votes oid) == CallPhase.finished .accepted) = false := by
  unfold startPhase
  split
  · rfl
  · split
    · rfl
    · split
      · rfl
      · simp

/-- With a valid target in a published poll, validation reaches the pre-flight
check against poll `P`. -/
theorem startPhase_eq_checked (polls : List Poll) (opts : List PollOption)
    (uid : String) (votes : List Vote) (oid P : String) (o : PollOption) (poll : Poll)
    (ho : opts.find? (fun x => x.id == oid) = some o) (hoP : o.pollId = P)
    (hpoll : polls.find? (fun p => p.id == P) = some poll)
    (hpub : poll.isPublished = true) :
    startPhase polls opts uid votes oid =
      .checked (hasVoteInPoll opts votes uid P) := by
  subst hoP
  unfold startPhase
  rw [ho]
  simp [hpoll, hpub]

/-- The pre-flight phase records exactly what the duplicate lookup saw. -/
theorem sawConflict_checked (b : Bool) : (CallPhase.checked b).sawConflict = b := by
  cases b <;> rfl

/-- Appending a vote row extends the duplicate check disjunctively. -/
theorem hasVoteInPoll_append (opts : List PollOption) (vs : List Vote) (v : Vote)
    (uid P : String) :
    hasVoteInPoll opts (vs ++ [v]) uid P =
      (hasVoteInPoll opts vs uid P ||
        (v.userId == uid &&
          ((opts.find? (fun o => o.id == v.pollOptionId)).map PollOption.pollId ==
            some P))) := by
  unfold hasVoteInPoll
  rw [List.any_append]
  simp

/-- Every step preserves the invariant (given a published target poll). -/
theorem concInv_step (polls : List Poll) (opts : List PollOption) (uid P : String)
    (poll : Poll)
    (hpoll : polls.find? (fun p => p.id == P) = some poll)
    (hpub : poll.isPublished = true)
    (s s' : ConcState)
    (hstep : CStep polls opts uid s s')
    (hinv : ConcInv polls opts uid P s) :
    ConcInv polls opts uid P s' := by
  obtain ⟨hvalid, hphase, hva, hle, hsaw⟩ := hinv
  cases hstep with
  | start i oid s hi =>
    have hmem : (oid, CallPhase.ready) ∈ s.calls := List.getElem?_mem hi
    have hvt : ValidTarget opts P oid := hvalid _ hmem
    obtain ⟨o, ho, hoP⟩ : ∃ o, opts.find? (fun x => x.id == oid) = some o ∧
        o.pollId = P := by
      unfold ValidTarget at hvt
      cases hfo : opts.find? (fun x => x.id == oid) with
      | none => rw [hfo] at hvt; exact absurd hvt (by simp)
      | some o =>
        rw [hfo] at hvt
        exact ⟨o, rfl, by simpa using hvt⟩
    have hsp : startPhase polls opts uid s.votes oid =
        .checked (hasVoteInPoll opts s.votes uid P) :=
      startPhase_eq_checked polls opts uid s.votes oid P o poll ho hoP hpoll hpub
    have hcount : acceptedCount (s.calls.set i
        (oid, startPhase polls opts uid s.votes oid)) = acceptedCount s.calls := by
      have := countP_set_eq s.calls i (oid, CallPhase.ready)
        (oid, startPhase polls opts uid s.votes oid)
        (fun c => c.2 == CallPhase.finished .accepted) hi
      rw [hsp] at this ⊢
      simpa using this
    refine ⟨?_, ?_, ?_, ?_, ?_⟩
    · intro c hc
      rcases List.mem_or_eq_of_mem_set hc with h | h
      · exact hvalid c h
      · rw [h]; exact hvt
    · intro c hc
      rcases List.mem_or_eq_of_mem_set hc with h | h
      · exact hphase c h
      · rw [h, hsp]; trivial
    · simpa [hcount] using hva
    · simpa [hcount] using hle
    · intro c hc hcs
      rw [hcount]
      rcases List.mem_or_eq_of_mem_set hc with h | h
      · exact hsaw c h hcs
      · rw [h, hsp, sawConflict_checked] at hcs
        rw [hva] at hcs
        simpa using hcs
  | rejectDup i oid s hi =>
    have hmem : (oid, CallPhase.checked true) ∈ s.calls := List.getElem?_mem hi
    have hcount : acceptedCount (s.calls.set i
        (oid, CallPhase.finished .conflictEarly)) = acceptedCount s.calls := by
      have := countP_set_eq s.calls i (oid, CallPhase.checked true)
        (oid, CallPhase.finished .conflictEarly)
        (fun c => c.2 == CallPhase.finished .accepted) hi
      simpa using this
    refine ⟨?_, ?_, ?_, ?_, ?_⟩
    · intro c hc
      rcases List.mem_or_eq_of_mem_set hc with h | h
      · exact hvalid c h
      · rw [h]
        have hv := hvalid _ hmem
        exact hv
    · intro c hc
      rcases List.mem_or_eq_of_mem_set hc with h | h
      · exact hphase c h
      · rw [h]; trivial
    · simpa [hcount] using hva
    · simpa [hcount] using hle
    · intro c hc _
      rw [hcount]
      exact hsaw _ hmem (by simp [CallPhase.sawConflict])
  | insertFail i oid o s hi ho hdup =>
    have hmem : (oid, CallPhase.checked false) ∈ s.calls := List.getElem?_mem hi
    have hoP : o.pollId = P := by
      have hvt := hvalid _ hmem
      unfold ValidTarget at hvt
      rw [ho] at hvt
      simpa using hvt
    have hcount : acceptedCount (s.calls.set i
        (oid, CallPhase.finished .conflictLate)) = acceptedCount s.calls := by
      have := countP_set_eq s.calls i (oid, CallPhase.checked false)
        (oid, CallPhase.finished .conflictLate)
        (fun c => c.2 == CallPhase.finished .accepted) hi
      simpa using this
    have hge : 1 ≤ acceptedCount s.calls := by
      rw [hoP] at hdup
      rw [hva] at hdup
      simpa using hdup
    refine ⟨?_, ?_, ?_, ?_, ?_⟩
    · intro c hc
      rcases List.mem_or_eq_of_mem_set hc with h | h
      · exact hvalid c h
      · rw [h]
        have hv := hvalid _ hmem
        exact hv
    · intro c hc
      rcases List.mem_or_eq_of_mem_set hc with h | h
      · exact hphase c h
      · rw [h]; trivial
    · simpa [hcount] using hva
    · simpa [hcount] using hle
    · intro c hc _
      rw [hcount]
      exact hge
  | insertOk i oid vid o s hi ho hfresh =>
    have hmem : (oid, CallPhase.checked false) ∈ s.calls := List.getElem?_mem hi
    have hoP : o.pollId = P := by
      have hvt := hvalid _ hmem
      unfold ValidTarget at hvt
      rw [ho] at hvt
      simpa using hvt
    have hzero : acceptedCount s.calls = 0 := by
      rw [hoP] at hfresh
      rw [hva] at hfresh
      simpa using hfresh
    have hcount : acceptedCount (s.calls.set i
        (oid, CallPhase.finished .accepted)) = acceptedCount s.calls + 1 := by
      have h2 := countP_set_eq s.calls i (oid, CallPhase.checked false)
        (oid, CallPhase.finished .accepted)
        (fun c => c.2 == CallPhase.finished .accepted) hi
      simp at h2
      unfold acceptedCount
      omega
    have hnew : hasVoteInPoll opts (s.votes ++ [⟨vid, uid, oid⟩]) uid P = true := by
      rw [hasVoteInPoll_append]
      have hvt := hvalid _ hmem
      unfold ValidTarget at hvt
      simp [hvt]
    refine ⟨?_, ?_, ?_, ?_, ?_⟩
    · intro c hc
      rcases List.mem_or_eq_of_mem_set hc with h | h
      · exact hvalid c h
      · rw [h]
        have hv := hvalid _ hmem
        exact hv
    · intro c hc
      rcases List.mem_or_eq_of_mem_set hc with h | h
      · exact hphase c h
      · rw [h]; trivial
    · rw [hnew, hcount, hzero]
      decide
    · rw [hcount, hzero]
    · intro c hc _
      rw [hcount, hzero]

/-- The invariant is preserved along any interleaved run. -/
theorem concInv_steps (polls : List Poll) (opts : List PollOption) (uid P : String)
    (poll : Poll)
    (hpoll : polls.find? (fun p => p.id == P) = some poll)
    (hpub : poll.isPublished = true)
    (s₀ s₁ : ConcState)
    (hrun : CSteps polls opts uid s₀ s₁)
    (hinv : ConcInv polls opts uid P s₀) :
    ConcInv polls opts uid P s₁ := by
  induction hrun with
  | refl => exact hinv
  | tail hs hstep ih =>
    exact concInv_step polls opts uid P poll hpoll hpub _ _ hstep ih

/-- Steps do not change the number of in-flight calls. -/
theorem calls_length_steps (polls : List Poll) (opts : List PollOption) (uid : String)
    (s₀ s₁ : ConcState) (hrun : CSteps polls opts uid s₀ s₁) :
    s₁.calls.length = s₀.calls.length := by
  induction hrun with
  | refl => rfl
  | tail hs hstep ih => cases hstep <;> simpa using ih

/-- C1: with `N ≥ 2` concurrent submissions by one voter targeting existing
options of one published poll, starting from a state where that voter holds no
vote in the poll, every completed interleaving accepts exactly one submission
and rejects each of the others with an already-voted conflict; in particular no
two of them are both admitted. -/
theorem polling_concurrent_single_accept (polls : List Poll) (opts : List PollOption)
    (uid P : String) (poll : Poll) (s₀ s₁ : ConcState)
    (hpoll : polls.find? (fun p => p.id == P) = some poll)
    (hpub : poll.isPublished = true)
    (htarget : ∀ c ∈ s₀.calls,
      (opts.find? (fun x => x.id == c.1)).map PollOption.pollId = some P)
    (hready : ∀ c ∈ s₀.calls, c.2 = CallPhase.ready)
    (hfresh : hasVoteInPoll opts s₀.votes uid P = false)
    (hN : 2 ≤ s₀.calls.length)
    (hrun : CSteps polls opts uid s₀ s₁)
    (hdone : ∀ c ∈ s₁.calls, ∃ r, c.2 = CallPhase.finished r) :
    acceptedCount s₁.calls = 1 ∧
    ∀ c ∈ s₁.calls, c.2 = CallPhase.finished VoteResult.accepted ∨
      ∃ r, c.2 = CallPhase.finished r ∧ r.isConflict = true := by
  have hA0 : acceptedCount s₀.calls = 0 := by
    unfold acceptedCount
    rw [List.countP_eq_zero]
    intro c hc
    rw [hready c hc]
    simp
  have hinv₀ : ConcInv polls opts uid P s₀ :=
    { valid := fun c hc => htarget c hc
      phase := fun c hc => by rw [hready c hc]; trivial
      vote_acc := by rw [hfresh, hA0]; rfl
      acc_le := by rw [hA0]; omega
      saw := fun c hc hcs => by
        rw [hready c hc] at hcs
        exact Bool.noConfusion hcs }
  have hinv₁ : ConcInv polls opts uid P s₁ :=
    concInv_steps polls opts uid P poll hpoll hpub s₀ s₁ hrun hinv₀
  have hlen : s₁.calls.length = s₀.calls.length :=
    calls_length_steps polls opts uid s₀ s₁ hrun
  have hge : 1 ≤ acceptedCount s₁.calls := by
    by_contra hlt
    have hA : acceptedCount s₁.calls = 0 := by omega
    have hpos : 0 < s₁.calls.length := by omega
    have hmem : s₁.calls.get ⟨0, hpos⟩ ∈ s₁.calls := List.get_mem s₁.calls 0 hpos
    obtain ⟨r, hr⟩ := hdone _ hmem
    have hph := hinv₁.phase _ hmem
    rw [hr] at hph
    cases r with
    | accepted =>
      have hp : 0 < acceptedCount s₁.calls := by
        unfold acceptedCount
        rw [List.countP_pos_iff]
        exact ⟨_, hmem, by rw [hr]; rfl⟩
      omega
    | conflictEarly =>
      have := hinv₁.saw _ hmem (by rw [hr]; rfl)
      omega
    | conflictLate =>
      have := hinv₁.saw _ hmem (by rw [hr]; rfl)
      omega
    | notFound => exact hph
    | forbidden => exact hph
    | internalError => exact hph
  refine ⟨by have := hinv₁.acc_le; omega, ?_⟩
  intro c hc
  obtain ⟨r, hr⟩ := hdone c hc
  have hph := hinv₁.phase c hc
  rw [hr] at hph
  cases r with
  | accepted => exact Or.inl (by rw [hr])
  | conflictEarly => exact Or.inr ⟨_, hr, rfl⟩
  | conflictLate => exact Or.inr ⟨_, hr, rfl⟩
  | notFound => exact hph.elim
  | forbidden => exact hph.elim
  | internalError => exact hph.elim

/-- A complete interleaving of the two-call demo run. -/
theorem c1run : CSteps c1polls c1opts "u" c1s0 c1s4 := by
  have h1 : CStep c1polls c1opts "u" c1s0 c1s1 := CStep.start 0 "a" c1s0 (by decide)
  have h2 : CStep c1polls c1opts "u" c1s1 c1s2 :=
    CStep.insertOk 0 "a" "v1" ⟨"a", "A", "p"⟩ c1s1 (by decide) (by decide) (by decide)
  have h3 : CStep c1polls c1opts "u" c1s2 c1s3 := CStep.start 1 "b" c1s2 (by decide)
  have h4 : CStep c1polls c1opts "u" c1s3 c1s4 := CStep.rejectDup 1 "b" c1s3 (by decide)
  exact Relation.ReflTransGen.head h1 (Relation.ReflTransGen.head h2
    (Relation.ReflTransGen.head h3 (Relation.ReflTransGen.single h4)))

/-- Closed instantiation of the concurrency theorem on the two-call demo run. -/
theorem polling_concurrent_single_accept_witness :
    acceptedCount c1s4.calls = 1 ∧
    ∀ c ∈ c1s4.calls, c.2 = CallPhase.finished VoteResult.accepted ∨
      ∃ r, c.2 = CallPhase.finished r ∧ r.isConflict = true :=
  polling_concurrent_single_accept c1polls c1opts "u" "p" ⟨"p", "Q", true, "w"⟩
    c1s0 c1s4 (by decide) rfl (by decide) (by decide) (by decide) (by decide) c1run
    (by
      intro c hc
      simp only [c1s4, List.mem_cons, List.not_mem_nil, or_false] at hc
      rcases hc with rfl | rfl
      · exact ⟨VoteResult.accepted, rfl⟩
      · exact ⟨VoteResult.conflictEarly, rfl⟩)

/-! ## C4: the two conflict detection paths -/

/-- C4 counterexample: in one concrete run both detection paths occur — call 1
is rejected by the storage constraint (late) while call 2 is rejected by the
pre-flight lookup (early) — and the two rejections are not identical: the
status codes agree but the response bodies differ. -/
theorem polling_conflict_paths_counterexample :
    CSteps c1polls c4opts "u" c4s0 c4s6 ∧
    c4s6.calls = [("a", .finished .accepted), ("b", .finished .conflictLate),
      ("c", .finished .conflictEarly)] ∧
    (responseOf VoteResult.conflictEarly).status =
      (responseOf VoteResult.conflictLate).status ∧
    responseOf VoteResult.conflictEarly ≠ responseOf VoteResult.conflictLate := by
  refine ⟨?_, rfl, rfl, by decide⟩
  have h1 : CStep c1polls c4opts "u" c4s0 c4s1 := CStep.start 0 "a" c4s0 (by decide)
  have h2 : CStep c1polls c4opts "u" c4s1 c4s2 := CStep.start 1 "b" c4s1 (by decide)
  have h3 : CStep c1polls c4opts "u" c4s2 c4s3 :=
    CStep.insertOk 0 "a" "v1" ⟨"a", "A", "p"⟩ c4s2 (by decide) (by decide) (by decide)
  have h4 : CStep c1polls c4opts "u" c4s3 c4s4 :=
    CStep.insertFail 1 "b" ⟨"b", "B", "p"⟩ c4s3 (by decide) (by decide) (by decide)
  have h5 : CStep c1polls c4opts "u" c4s4 c4s5 := CStep.start 2 "c" c4s4 (by decide)
  have h6 : CStep c1polls c4opts "u" c4s5 c4s6 := CStep.rejectDup 2 "c" c4s5 (by decide)
  exact Relation.ReflTransGen.head h1 (Relation.ReflTransGen.head h2
    (Relation.ReflTransGen.head h3 (Relation.ReflTransGen.head h4
      (Relation.ReflTransGen.head h5 (Relation.ReflTransGen.single h6)))))

/-- C4 (amended): the pre-flight and constraint-violation detection paths map to
the same status code 409, but their response bodies differ — `You have already
voted in this poll` (early) versus `You have already voted for this option`
(late). -/
theorem polling_conflict_paths_same_status :
    (responseOf VoteResult.conflictEarly).status = 409 ∧
    (responseOf VoteResult.conflictLate).status = 409 ∧
    (responseOf VoteResult.conflictEarly).error =
      some "You have already voted in this poll" ∧
    (responseOf VoteResult.conflictLate).error =
      some "You have already voted for this option" := by
  decide

/-! ## C5: the broadcast payload shape -/

/-- C5 counterexample: the single `pollUpdate` payload emitted for a successful
vote does not have the claimed flat shape
`\x7bpollId, question, totalVotes, options\x7d` — its tally fields are nested. -/
theorem polling_broadcast_shape_counterexample :
    (submitVote voteStore "u9" (some "a") "v9").broadcasts.map
      (fun b => isSpecTallyShape (payloadJson b)) = [false] := by
  decide

/-- Any emitted broadcast carries the post-insert tally of its poll. -/
theorem submit_broadcast_results (s : Store) (uid : String) (oid? : Option String)
    (vid : String) :
    ∀ b ∈ (submitVote s uid oid? vid).broadcasts,
      getPollResultsInternal (submitVote s uid oid? vid).store b.pollId =
        some b.results := by
  unfold submitVote
  split
  · intro b hb
    exact absurd hb (List.not_mem_nil b)
  · split
    · intro b hb
      exact absurd hb (List.not_mem_nil b)
    · split
      · intro b hb
        exact absurd hb (List.not_mem_nil b)
      · split
        · intro b hb
          exact absurd hb (List.not_mem_nil b)
        · split
          · intro b hb
            exact absurd hb (List.not_mem_nil b)
          · split
            · intro b hb
              exact absurd hb (List.not_mem_nil b)
            · split
              · intro b hb
                exact absurd hb (List.not_mem_nil b)
              · next results hres =>
                intro b hb
                rw [List.mem_singleton] at hb
                subst hb
                exact hres

/-- The tally's option entries mirror the store's options for the poll, in store
(creation) order, and carry the poll's id. -/
theorem tally_options_order (s : Store) (pid : String) (r : PollResults)
    (h : getPollResultsInternal s pid = some r) :
    r.options.map OptionResult.id =
      (s.options.filter (fun o => o.pollId == pid)).map PollOption.id ∧
    r.pollId = pid := by
  unfold getPollResultsInternal at h
  cases hp : findPoll s pid with
  | none =>
    rw [hp] at h
    exact absurd h (by simp)
  | some poll =>
    rw [hp] at h
    simp only [Option.some.injEq] at h
    subst h
    constructor
    · simp only [List.map_map]
      rfl
    · have hbeq : (poll.id == pid) = true := by simpa using List.find?_some hp
      exact eq_of_beq hbeq

/-- The JSON encoding of any computed tally has the spec's tally shape. -/
theorem isSpecTallyShape_pollResultsJson (r : PollResults) :
    isSpecTallyShape (pollResultsJson r) = true := by
  show (r.options.map optionResultJson).all isOptionEntryShape = true
  rw [List.all_eq_true]
  intro x hx
  obtain ⟨e, -, rfl⟩ := List.mem_map.mp hx
  rfl

/-- C5 (amended): every `pollUpdate` broadcast payload is an object
`\x7bpollId, results\x7d`; the nested `results` object has the spec's tally shape
`\x7bpollId, question, totalVotes, options: [\x7bid, text, voteCount, percentage\x7d]\x7d`
with a matching poll id and with options in the store's creation order. -/
theorem polling_broadcast_payload_shape :
    ∀ (s : Store) (uid : String) (oid? : Option String) (vid : String),
      ∀ b ∈ (submitVote s uid oid? vid).broadcasts,
        (payloadJson b).topKeys = ["pollId", "results"] ∧
        isSpecTallyShape (pollResultsJson b.results) = true ∧
        b.results.pollId = b.pollId ∧
        b.results.options.map OptionResult.id =
          ((submitVote s uid oid? vid).store.options.filter
            (fun o => o.pollId == b.pollId)).map PollOption.id := by
  intro s uid oid? vid b hb
  have hres := submit_broadcast_results s uid oid? vid b hb
  have hord := tally_options_order _ _ _ hres
  exact ⟨rfl, isSpecTallyShape_pollResultsJson b.results, hord.2, hord.1⟩

/-- Closed instantiation of the amended payload-shape theorem. -/
theorem polling_broadcast_payload_shape_witness :
    (payloadJson votePayload).topKeys = ["pollId", "results"] ∧
    isSpecTallyShape (pollResultsJson votePayload.results) = true ∧
    votePayload.results.pollId = votePayload.pollId ∧
    votePayload.results.options.map OptionResult.id =
      ((submitVote voteStore "u9" (some "a") "v9").store.options.filter
        (fun o => o.pollId == votePayload.pollId)).map PollOption.id :=
  polling_broadcast_payload_shape voteStore "u9" (some "a") "v9" votePayload (by decide)

end Polling
